import Mathlib

/-!
Shallow embedding of the spire Assembly core (`src/spire/core/assembly.py`):
unit-cache acquisition, configuration merging, pending-configuration
resolution, thread-local promotion/demotion, and polymorphic collation.
Python dicts are association lists with unique keys; exceptions are
`Except`; the reentrant guard lock is tracked through explicit event traces.
-/

namespace Spire

/-- Python dict lookup `d[k]` on an association list (unique keys). -/
def lookupVal {α : Type} : List (String × α) → String → Option α
  | [], _ => none
  | (k1, v) :: rest, k => if k1 = k then some v else lookupVal rest k

/-- Python dict assignment `d[k] = v`: replace the existing binding in place,
or append a new one. -/
def setKey {α : Type} : List (String × α) → String → α → List (String × α)
  | [], k, v => [(k, v)]
  | (k1, v1) :: rest, k, v =>
    if k1 = k then (k, v) :: rest else (k1, v1) :: setKey rest k v

/-- Removal effect of Python dict `d.pop(k)`. -/
def removeKey {α : Type} : List (String × α) → String → List (String × α)
  | [], _ => []
  | (k1, v1) :: rest, k => if k1 = k then rest else (k1, v1) :: removeKey rest k

/-- Python `k in d`. -/
def containsKey {α : Type} (l : List (String × α)) (k : String) : Bool :=
  (lookupVal l k).isSome

/-- A configuration value: an opaque non-mapping value, or a nested mapping. -/
inductive Value where
  | atom : Int → Value
  | map : List (String × Value) → Value

mutual

/-- Modelled from the spec: `recursive_merge(target, source)` from `spire.util`,
whose source is not included here. Nested mappings merge key-by-key,
recursively; a non-mapping value at a given key is replaced, not merged. -/
def recursive_merge : List (String × Value) → List (String × Value) → List (String × Value)
  | target, [] => target
  | target, (k, sv) :: rest =>
    recursive_merge (setKey target k (mergeValue (lookupVal target k) sv)) rest
termination_by _ s => sizeOf s

/-- Modelled from the spec: how one source value lands on its target slot during
`recursive_merge`: two mappings merge recursively, anything else replaces. -/
def mergeValue : Option Value → Value → Value
  | some (Value.map t), Value.map s => Value.map (recursive_merge t s)
  | _, s => s
termination_by _ v => sizeOf v

end

/-- An observable guard/state event: taking or releasing the assembly's
reentrant guard, or mutating one of the three guarded structures. -/
inductive Ev where
  | lock
  | unlock
  | mutCache
  | mutConfig
  | mutPending
deriving DecidableEq

/-- Contribution of one event to the guard's hold depth. -/
def lockDelta : Ev → Int
  | Ev.lock => 1
  | Ev.unlock => -1
  | _ => 0

/-- Net guard balance of a trace; zero means every acquisition was released. -/
def netLock : List Ev → Int
  | [] => 0
  | e :: rest => lockDelta e + netLock rest

/-- Checks, tracking the guard's hold depth, that every mutation event in the
trace happens while the guard is held (depth positive). -/
def mutationsLocked : List Ev → Nat → Bool
  | [], _ => true
  | Ev.lock :: rest, d => mutationsLocked rest (d + 1)
  | Ev.unlock :: rest, d => mutationsLocked rest (d - 1)
  | Ev.mutCache :: rest, d => d != 0 && mutationsLocked rest d
  | Ev.mutConfig :: rest, d => d != 0 && mutationsLocked rest d
  | Ev.mutPending :: rest, d => d != 0 && mutationsLocked rest d

/-- `Assembly.acquire(key, instantiator, arguments)`: under the guard, return
the cached instance for `key` if present; otherwise run the instantiator and
cache its result under `key`. A raised exception is an `Except.error`: nothing
is cached and the error is returned to the caller. -/
def acquire {α β ε : Type} (cache : List (String × α)) (key : String)
    (instantiator : β → Except ε α) (arguments : β) :
    List (String × α) × Except ε α :=
  match lookupVal cache key with
  | some inst => (cache, Except.ok inst)
  | none =>
    match instantiator arguments with
    | Except.error e => (cache, Except.error e)
    | Except.ok inst => (setKey cache key inst, Except.ok inst)

/-- Guard/mutation trace of `Assembly.acquire` on the same inputs: the guard is
taken first and released last (the `finally` clause) on the hit path, the
construction-failure path and the construction-success path alike; only the
success path writes the cache. -/
def acquireEvents {α β ε : Type} (cache : List (String × α)) (key : String)
    (instantiator : β → Except ε α) (arguments : β) : List Ev :=
  Ev.lock ::
    (match lookupVal cache key with
      | some _ => []
      | none =>
        match instantiator arguments with
        | Except.error _ => []
        | Except.ok _ => [Ev.mutCache]) ++ [Ev.unlock]

/-- A unit type as `Assembly.instantiate` sees it: a class-level identity token
and a zero-argument constructor (calling the class). -/
structure UnitType (ε α : Type) where
  identity : String
  construct : Unit → Except ε α

/-- `Assembly.instantiate(unit)` for a unit class: delegates to
`acquire(unit.identity, unit, ())`. The string branch resolves through the
`import_object` collaborator first and then reaches this same call. -/
def instantiate {α ε : Type} (cache : List (String × α)) (u : UnitType ε α) :
    List (String × α) × Except ε α :=
  acquire cache u.identity u.construct ()

/-- The configuration half of an Assembly's state: the `configuration` mapping
of validated entries and the `pending` mapping of raw, unvalidated entries. -/
structure AState where
  configuration : List (String × Value)
  pending : List (String × Value)

/-- `Assembly.configure(configuration)`: for each top-level token, an entry
with a registered schema is validated (`schema.process`) and recursively
merged into `configuration`; one without a schema is recursively merged raw
into `pending`. Schemas are the `Registry.schemas` collaborator mapping. -/
def configure (schemas : String → Option (Value → Value)) (st : AState)
    (cfg : List (String × Value)) : AState :=
  cfg.foldl (fun st1 td =>
    match schemas td.1 with
    | some schema =>
      { st1 with configuration := recursive_merge st1.configuration [(td.1, schema td.2)] }
    | none =>
      { st1 with pending := recursive_merge st1.pending [(td.1, td.2)] }) st

/-- Guard/mutation trace of `Assembly.configure` on the same inputs: one
mutation per top-level token and no guard acquisition anywhere. -/
def configureEvents (schemas : String → Option (Value → Value))
    (cfg : List (String × Value)) : List Ev :=
  cfg.map (fun td =>
    match schemas td.1 with
    | some _ => Ev.mutConfig
    | none => Ev.mutPending)

/-- One step of the pending-resolution loop in `Assembly.get_configuration`:
if a schema is registered for pending token `k`, pop it from `pending`,
validate, and recursively merge the result into `configuration`. -/
def resolvePending (schemas : String → Option (Value → Value)) (st : AState)
    (k : String) : AState :=
  match schemas k with
  | none => st
  | some schema =>
    match lookupVal st.pending k with
    | none => st
    | some data =>
      { configuration := recursive_merge st.configuration [(k, schema data)],
        pending := removeKey st.pending k }

/-- `Assembly.get_configuration(token)`: fast path returns the already-resolved
entry. Otherwise, under the guard, every pending token with a registered schema
is validated and moved into `configuration`; the final lookup, however, uses
the loop variable, which the `for token in self.pending.keys()` loop left at
the last snapshot key (the parameter is shadowed), falling back to the
requested token only when `pending` was empty. A missing final key is a
`KeyError`, modelled as `Except.error` carrying the looked-up token. -/
def get_configuration (schemas : String → Option (Value → Value)) (st : AState)
    (token : String) : AState × Except String Value :=
  match lookupVal st.configuration token with
  | some v => (st, Except.ok v)
  | none =>
    let keys := st.pending.map Prod.fst
    let st' := keys.foldl (resolvePending schemas) st
    let token' := keys.getLast?.getD token
    match lookupVal st'.configuration token' with
    | some v => (st', Except.ok v)
    | none => (st', Except.error token')

/-- Guard/mutation trace of `Assembly.get_configuration` on the same inputs:
nothing on the fast path; otherwise the guard wraps the resolution loop, whose
every schema-bearing pending token pops `pending` and merges `configuration`. -/
def getConfigurationEvents (schemas : String → Option (Value → Value))
    (st : AState) (token : String) : List Ev :=
  match lookupVal st.configuration token with
  | some _ => []
  | none =>
    Ev.lock ::
      ((st.pending.map Prod.fst).foldl (fun acc k =>
        acc ++
          match schemas k with
          | some _ => [Ev.mutPending, Ev.mutConfig]
          | none => []) []) ++ [Ev.unlock]

/-- `Assembly.promote()`: point the thread-local slot at this assembly;
returns `self`. Assemblies are identified by their ids. -/
def promote (a : Nat) (_slot : Option Nat) : Option Nat × Nat :=
  (some a, a)

/-- `Assembly.demote()`: clear the thread-local slot only when it points at
this assembly; returns `self`. -/
def demote (a : Nat) (slot : Option Nat) : Option Nat × Nat :=
  (if slot = some a then none else slot, a)

/-- `Assembly.current()`: the thread-local assembly when one is set, else the
process-wide standard assembly (`local.assembly or standard`). -/
def currentAssembly (std : Nat) (slot : Option Nat) : Nat :=
  slot.getD std

/-- `Assembly.__enter__`: promotes the assembly; its body has no `return`, so
the with-statement target receives Python's `None` (the second component). -/
def assemblyEnter (a : Nat) (slot : Option Nat) : Option Nat × Option Nat :=
  ((promote a slot).1, none)

/-- `Assembly.__exit__(*args)`: demotes unconditionally, whatever exception
information arrives. -/
def assemblyExit (a : Nat) (slot : Option Nat) (_exn : Option String) : Option Nat :=
  (demote a slot).1

/-- The `IndexError` raised by `prefix[-1]` on an empty string. -/
inductive ConfigError where
  | indexError
deriving DecidableEq

/-- Normalization step of `Assembly.filter_configuration`: append the `:`
separator unless the last character already is one. -/
def colonTerminated (p : String) : String :=
  if p.back ≠ ':' then p ++ ":" else p

/-- `Assembly.filter_configuration(p)`: inspect `p[-1]` (an `IndexError` when
`p` is empty), normalize `p` to end with `:`, and keep exactly the resolved
configuration entries whose token starts with the normalized p. -/
def filter_configuration (conf : List (String × Value)) (p : String) :
    Except ConfigError (List (String × Value)) :=
  if p.length = 0 then Except.error ConfigError.indexError
  else Except.ok (conf.filter (fun td => td.1.startsWith (colonTerminated p)))

/-- A cached unit instance: an object identity and the tag of its class. -/
structure Inst where
  iid : Nat
  ty : Nat
deriving DecidableEq

/-- A declared dependency of a cached unit, as `collate` reads it: the declared
unit type (`dependency.unit`) and the resolved instance `dependency.get(unit)`
(the `Dependency` class itself lives outside these sources). -/
structure DependencyRef where
  unit : Nat
  resolved : Inst
deriving DecidableEq

/-- A unit held in the assembly cache together with its declared dependencies
(`unit.dependencies.itervalues()`). -/
structure CachedUnit where
  inst : Inst
  dependencies : List DependencyRef
deriving DecidableEq

/-- Python `set.add`: membership-based insertion, no duplicates. -/
def setAdd (i : Inst) (s : List Inst) : List Inst :=
  if i ∈ s then s else i :: s

/-- Result of `Assembly.collate`: the full set for `single=False`, or the
optional sole instance for `single=True`. Sets are duplicate-free lists. -/
inductive CollateResult where
  | set (units : List Inst)
  | one (unit : Option Inst)
deriving DecidableEq

/-- The ambiguity error `collate(single=True)` raises on more than one match. -/
inductive CollateError where
  | ambiguous
deriving DecidableEq

/-- The set built by `Assembly.collate`'s scan: every cached instance of the
superclass, plus every dependency-resolved instance whose declared unit type
subclasses it. `sub c s` is Python's issubclass; isinstance is subclassing of
the instance's own class. -/
def collateUnits (sub : Nat → Nat → Bool) (cache : List CachedUnit) (sup : Nat) :
    List Inst :=
  cache.foldl (fun units u =>
    u.dependencies.foldl (fun units2 d =>
      if sub d.unit sup then setAdd d.resolved units2 else units2)
      (if sub u.inst.ty sup then setAdd u.inst units else units)) []

/-- `Assembly.collate(superclass, single)`: return the scanned set when
`single` is false; otherwise raise on more than one match, return the sole
match (`units.pop()`), or `None` on zero matches. -/
def collate (sub : Nat → Nat → Bool) (cache : List CachedUnit) (sup : Nat)
    (single : Bool) : Except CollateError CollateResult :=
  let units := collateUnits sub cache sup
  if single = false then Except.ok (CollateResult.set units)
  else if 1 < units.length then Except.error CollateError.ambiguous
  else Except.ok (CollateResult.one units.head?)

/-- Looking up the key just set finds the freshly stored value. -/
theorem lookupVal_setKey_self {α : Type} (l : List (String × α)) (k : String) (v : α) :
    lookupVal (setKey l k v) k = some v := by
  induction l with
  | nil => simp [setKey, lookupVal]
  | cons hd tl ih =>
    obtain ⟨k1, v1⟩ := hd
    by_cases h : k1 = k <;> simp [setKey, lookupVal, h, ih]

/-- Setting one key leaves every other key's lookup unchanged. -/
theorem lookupVal_setKey_ne {α : Type} (l : List (String × α)) (k k' : String) (v : α)
    (h : k' ≠ k) : lookupVal (setKey l k v) k' = lookupVal l k' := by
  induction l with
  | nil => simp [setKey, lookupVal, Ne.symm h]
  | cons hd tl ih =>
    obtain ⟨k1, v1⟩ := hd
    by_cases h1 : k1 = k
    · subst h1
      simp [setKey, lookupVal, Ne.symm h]
    · by_cases h2 : k1 = k' <;> simp [setKey, lookupVal, h1, h2, h, ih]

/-- A key absent from the key list looks up to nothing. -/
theorem lookupVal_eq_none {α : Type} (l : List (String × α)) (k : String)
    (h : k ∉ l.map Prod.fst) : lookupVal l k = none := by
  induction l with
  | nil => rfl
  | cons hd tl ih =>
    obtain ⟨k1, v1⟩ := hd
    simp only [List.map_cons, List.mem_cons] at h
    push_neg at h
    have hne : ¬ k1 = k := fun hh => h.1 hh.symm
    simp [lookupVal, hne, ih h.2]

/-- C1: at-most-once instantiation per identity key: the first successful
acquire on a missing key runs the instantiator and stores its result in the
cache under the key; afterwards every acquire or instantiate for that key on
the same cache returns the identical stored instance with a result
independent of the new instantiator — so the instantiator is never run
again. -/
theorem acquire_at_most_once {α β γ ε : Type} (cache : List (String × α))
    (k : String) (f : β → Except ε α) (args : β) (v : α)
    (hmiss : lookupVal cache k = none) (hok : f args = Except.ok v) :
    acquire cache k f args = (setKey cache k v, Except.ok v) ∧
    lookupVal (setKey cache k v) k = some v ∧
    (∀ (g : γ → Except ε α) (bs : γ),
      acquire (setKey cache k v) k g bs = (setKey cache k v, Except.ok v)) ∧
    (∀ u : UnitType ε α, u.identity = k →
      instantiate (setKey cache k v) u = (setKey cache k v, Except.ok v)) := by
  refine ⟨?_, lookupVal_setKey_self cache k v, ?_, ?_⟩
  · simp [acquire, hmiss, hok]
  · intro g bs
    simp [acquire, lookupVal_setKey_self]
  · intro u hu
    simp [instantiate, acquire, hu, lookupVal_setKey_self]

/-- Concrete run of `acquire_at_most_once`: first acquire caches 7 under key
k, and a second acquire with a failing instantiator still returns 7 without
touching the cache. -/
theorem acquire_at_most_once_witness :
    acquire ([] : List (String × Nat)) "k"
        (fun _ : Unit => (Except.ok 7 : Except String Nat)) () =
      (setKey [] "k" 7, Except.ok 7) ∧
    acquire (setKey ([] : List (String × Nat)) "k" 7) "k"
        (fun _ : Unit => (Except.error "boom" : Except String Nat)) () =
      (setKey [] "k" 7, Except.ok 7) :=
  ⟨(acquire_at_most_once (γ := Unit) [] "k"
      (fun _ : Unit => (Except.ok 7 : Except String Nat)) () 7 rfl rfl).1,
   (acquire_at_most_once (γ := Unit) [] "k"
      (fun _ : Unit => (Except.ok 7 : Except String Nat)) () 7 rfl rfl).2.2.1
      (fun _ : Unit => (Except.error "boom" : Except String Nat)) ()⟩

/-- C3: construction failure: when the instantiator fails on a cache miss,
its error propagates unchanged, the guard trace stays balanced (the lock is
released by the `finally`), the cache is returned unchanged, and a later
acquire for the key with a succeeding instantiator constructs and caches. -/
theorem acquire_failure_propagates {α β ε : Type} (cache : List (String × α))
    (k : String) (f : β → Except ε α) (args : β) (e : ε)
    (hmiss : lookupVal cache k = none) (herr : f args = Except.error e) :
    acquire cache k f args = (cache, Except.error e) ∧
    netLock (acquireEvents cache k f args) = 0 ∧
    (∀ (g : β → Except ε α) (bs : β) (v : α), g bs = Except.ok v →
      acquire cache k g bs = (setKey cache k v, Except.ok v)) := by
  refine ⟨?_, ?_, ?_⟩
  · simp [acquire, hmiss, herr]
  · simp [acquireEvents, hmiss, herr, netLock, lockDelta]
  · intro g bs v hok
    simp [acquire, hmiss, hok]

/-- Concrete run of `acquire_failure_propagates`: a failing construction
returns the error and the untouched empty cache, with a balanced guard
trace. -/
theorem acquire_failure_propagates_witness :
    acquire ([] : List (String × Nat)) "k"
        (fun _ : Unit => (Except.error "boom" : Except String Nat)) () =
      ([], Except.error "boom") ∧
    netLock (acquireEvents ([] : List (String × Nat)) "k"
        (fun _ : Unit => (Except.error "boom" : Except String Nat)) ()) = 0 :=
  ⟨(acquire_failure_propagates [] "k"
      (fun _ : Unit => (Except.error "boom" : Except String Nat)) () "boom" rfl rfl).1,
   (acquire_failure_propagates [] "k"
      (fun _ : Unit => (Except.error "boom" : Except String Nat)) () "boom" rfl rfl).2.1⟩

/-- A string has length zero exactly when it is empty. -/
theorem string_length_zero (p : String) : p.length = 0 ↔ p = "" := by
  constructor
  · intro h
    obtain ⟨data⟩ := p
    cases data with
    | nil => rfl
    | cons c cs => simp [String.length] at h
  · intro h
    subst h
    rfl

/-- C4 counterexample: with assembly 2 already promoted, promote(1) followed
by the matching demote(1) leaves the thread-local slot cleared: current()
falls back to the standard assembly 0, and neither the slot nor current()
is restored to the previously promoted assembly 2. -/
theorem demote_does_not_restore_prior :
    (demote 1 (promote 1 (some 2)).1).1 = none ∧
    currentAssembly 0 (demote 1 (promote 1 (some 2)).1).1 = 0 ∧
    ¬ (demote 1 (promote 1 (some 2)).1).1 = some 2 ∧
    ¬ currentAssembly 0 (demote 1 (promote 1 (some 2)).1).1 = 2 := by
  decide

/-- C4 (amended): after a.promote(), current() is a; the matching demote()
— and __exit__, whatever exception information arrives — clears the slot, so
current() returns the standard assembly; a previously promoted assembly is
not restored (the slot is single, not a stack). -/
theorem promote_demote_round_trip (std a : Nat) (slot : Option Nat)
    (exn : Option String) :
    currentAssembly std (promote a slot).1 = a ∧
    (demote a (promote a slot).1).1 = none ∧
    currentAssembly std (demote a (promote a slot).1).1 = std ∧
    assemblyExit a (promote a slot).1 exn = none := by
  simp [promote, demote, currentAssembly, assemblyExit]

/-- C9: the context-manager entry promotes the assembly to the thread-local
slot, making it current, but its body has no return statement, so the
with-statement target is bound to None rather than the assembly. -/
theorem enter_promotes_but_returns_none (a std : Nat) (slot : Option Nat) :
    (assemblyEnter a slot).1 = some a ∧
    currentAssembly std (assemblyEnter a slot).1 = a ∧
    (assemblyEnter a slot).2 = none := by
  simp [assemblyEnter, promote, currentAssembly]

/-- C7 counterexample: on the empty string, filter_configuration raises the
index error from `prefix[-1]` instead of returning the entries whose token
starts with the normalized separator. -/
theorem filter_configuration_empty_cex :
    filter_configuration [(":x", Value.atom 1)] "" =
      Except.error ConfigError.indexError := rfl

/-- C7 (amended to non-empty prefixes, the empty one raising instead): the
prefix is normalized to end with the separator and the result holds exactly
the resolved entries whose token starts with the normalized prefix — every
kept token has the prefix, and every entry with the prefix is kept. -/
theorem filter_configuration_prefix_filter (conf : List (String × Value))
    (p : String) (hp : p ≠ "") :
    (p.back ≠ ':' → colonTerminated p = p ++ ":") ∧
    (p.back = ':' → colonTerminated p = p) ∧
    filter_configuration conf p =
      Except.ok (conf.filter (fun td => td.1.startsWith (colonTerminated p))) ∧
    (∀ t d, (t, d) ∈ conf.filter (fun td => td.1.startsWith (colonTerminated p)) ↔
      (t, d) ∈ conf ∧ t.startsWith (colonTerminated p) = true) := by
  have hlen : ¬ p.length = 0 := fun h => hp ((string_length_zero p).mp h)
  refine ⟨?_, ?_, ?_, ?_⟩
  · intro hb
    simp [colonTerminated, hb]
  · intro hb
    simp [colonTerminated, hb]
  · simp [filter_configuration, hlen]
  · intro t d
    simp [List.mem_filter]

/-- Concrete run of `filter_configuration_prefix_filter` at the spec's own
example prefix: only the token starting with the normalized mesh prefix is
kept. -/
theorem filter_configuration_prefix_filter_witness :
    filter_configuration
        [("mesh:a", Value.atom 1), ("net:b", Value.atom 2), ("meshx", Value.atom 3)]
        "mesh" =
      Except.ok
        ([("mesh:a", Value.atom 1), ("net:b", Value.atom 2), ("meshx", Value.atom 3)].filter
          (fun td => td.1.startsWith (colonTerminated "mesh"))) :=
  (filter_configuration_prefix_filter
    [("mesh:a", Value.atom 1), ("net:b", Value.atom 2), ("meshx", Value.atom 3)]
    "mesh" (by decide)).2.2.1

/-- C10: filter_configuration is not total at the public interface: the empty
prefix raises the indexing error, while every non-empty prefix filters
without error. -/
theorem filter_configuration_totality :
    (∀ conf : List (String × Value),
      filter_configuration conf "" = Except.error ConfigError.indexError) ∧
    (∀ (conf : List (String × Value)) (p : String), p ≠ "" →
      filter_configuration conf p =
        Except.ok (conf.filter (fun td => td.1.startsWith (colonTerminated p)))) := by
  constructor
  · intro conf
    simp [filter_configuration]
  · intro conf p hp
    have hlen : ¬ p.length = 0 := fun h => hp ((string_length_zero p).mp h)
    simp [filter_configuration, hlen]

/-- Concrete run of `filter_configuration_totality`: empty prefix errors,
while a one-letter prefix returns a filtered result. -/
theorem filter_configuration_totality_witness :
    filter_configuration ([] : List (String × Value)) "" =
      Except.error ConfigError.indexError ∧
    filter_configuration ([] : List (String × Value)) "m" =
      Except.ok (([] : List (String × Value)).filter
        (fun td => td.1.startsWith (colonTerminated "m"))) :=
  ⟨filter_configuration_totality.1 [],
   filter_configuration_totality.2 [] "m" (by decide)⟩

/-- C2 (bug evaluation): requesting token a while pending holds only token b
(whose schema is the identity) does resolve b into the configuration, but
then returns b's entry — the `for token in self.pending.keys()` loop shadows
the `token` parameter — where the claim requires a key-lookup error for the
never-configured a. -/
theorem get_configuration_wrong_token :
    get_configuration (fun k => if k = "b" then some (fun v => v) else none)
        ⟨[], [("b", Value.atom 5)]⟩ "a" =
      (⟨[("b", Value.atom 5)], []⟩, Except.ok (Value.atom 5)) := by
  simp [get_configuration, resolvePending, recursive_merge, mergeValue,
    lookupVal, setKey, removeKey]

/-- Folding event appends over a list is the concatenation of the per-element
event blocks. -/
theorem foldl_append_bind {α : Type} (g : α → List Ev) (keys : List α)
    (acc : List Ev) :
    keys.foldl (fun a k => a ++ g k) acc = acc ++ keys.flatMap g := by
  induction keys generalizing acc with
  | nil => simp
  | cons k rest ih => simp [List.foldl_cons, ih]

/-- Every event the pending-resolution loop emits is a mutation event. -/
theorem resolve_bind_muts (schemas : String → Option (Value → Value))
    (keys : List String) :
    ∀ e ∈ keys.flatMap (fun k =>
        match schemas k with
        | some _ => [Ev.mutPending, Ev.mutConfig]
        | none => []),
      e = Ev.mutPending ∨ e = Ev.mutConfig := by
  intro e he
  rw [List.mem_flatMap] at he
  obtain ⟨k, _, he⟩ := he
  cases hs : schemas k <;> rw [hs] at he <;> simp at he
  rcases he with h | h <;> simp [h]

/-- Mutation-only events followed by the final release are all guarded at a
positive depth. -/
theorem mutationsLocked_muts_unlock (es : List Ev) (d : Nat) (hd : d ≠ 0)
    (h : ∀ e ∈ es, e = Ev.mutPending ∨ e = Ev.mutConfig) :
    mutationsLocked (es ++ [Ev.unlock]) d = true := by
  induction es with
  | nil => simp [mutationsLocked]
  | cons e rest ih =>
    have hd1 : (d != 0) = true := by simpa using hd
    rcases h e (List.mem_cons_self e rest) with he | he <;> subst he <;>
      simp [mutationsLocked, hd1,
        ih (fun x hx => h x (List.mem_cons_of_mem _ hx))]

/-- Guard balance splits over concatenation. -/
theorem netLock_append (a b : List Ev) :
    netLock (a ++ b) = netLock a + netLock b := by
  induction a with
  | nil => simp [netLock]
  | cons e rest ih =>
    simp [netLock, ih]
    ring

/-- Mutation-only events contribute nothing to the guard balance. -/
theorem netLock_muts (es : List Ev)
    (h : ∀ e ∈ es, e = Ev.mutPending ∨ e = Ev.mutConfig) :
    netLock es = 0 := by
  induction es with
  | nil => rfl
  | cons e rest ih =>
    rcases h e (List.mem_cons_self e rest) with he | he <;> subst he <;>
      simp [netLock, lockDelta,
        ih (fun x hx => h x (List.mem_cons_of_mem _ hx))]

/-- C8 counterexample: configure's trace mutates pending at guard depth zero
and contains no guard acquisition at all: configure does not take the lock
before mutating. -/
theorem configure_mutates_without_guard :
    mutationsLocked (configureEvents (fun _ => none) [("a", Value.atom 1)]) 0 = false ∧
    Ev.lock ∉ configureEvents (fun _ => none) [("a", Value.atom 1)] := by
  constructor
  · rfl
  · decide

/-- C8 (amended): acquire and get_configuration perform every mutation of the
guarded structures while holding the guard and leave it balanced (released);
configure, however, mutates configuration and pending without ever acquiring
or releasing the guard. -/
theorem guard_discipline :
    (∀ (cache : List (String × Nat)) (k : String)
        (f : Unit → Except String Nat) (args : Unit),
      mutationsLocked (acquireEvents cache k f args) 0 = true ∧
      netLock (acquireEvents cache k f args) = 0) ∧
    (∀ (schemas : String → Option (Value → Value)) (st : AState) (token : String),
      mutationsLocked (getConfigurationEvents schemas st token) 0 = true ∧
      netLock (getConfigurationEvents schemas st token) = 0) ∧
    (∀ (schemas : String → Option (Value → Value)) (cfg : List (String × Value)),
      Ev.lock ∉ configureEvents schemas cfg ∧
      Ev.unlock ∉ configureEvents schemas cfg) := by
  refine ⟨?_, ?_, ?_⟩
  · intro cache k f args
    constructor <;>
    · cases hl : lookupVal cache k with
      | some v => simp only [acquireEvents, hl] <;> decide
      | none =>
        cases hf : f args with
        | error e => simp only [acquireEvents, hl, hf] <;> decide
        | ok v => simp only [acquireEvents, hl, hf] <;> decide
  · intro schemas st token
    cases hl : lookupVal st.configuration token with
    | some v =>
      constructor <;> simp [getConfigurationEvents, hl, mutationsLocked, netLock]
    | none =>
      have hev : getConfigurationEvents schemas st token =
          Ev.lock ::
            ((st.pending.map Prod.fst).flatMap (fun k =>
              match schemas k with
              | some _ => [Ev.mutPending, Ev.mutConfig]
              | none => []) ++ [Ev.unlock]) := by
        simp only [getConfigurationEvents, hl]
        rw [foldl_append_bind]
        simp
      rw [hev]
      constructor
      · simp only [mutationsLocked]
        exact mutationsLocked_muts_unlock _ 1 (by decide)
          (resolve_bind_muts schemas (st.pending.map Prod.fst))
      · simp only [netLock, lockDelta, netLock_append,
          netLock_muts _ (resolve_bind_muts schemas (st.pending.map Prod.fst))]
        decide
  · intro schemas cfg
    constructor <;>
    · intro h
      rw [configureEvents, List.mem_map] at h
      obtain ⟨td, _, he⟩ := h
      cases hs : schemas td.1 <;> rw [hs] at he <;> simp at he

/-- Unfolding: merging an empty source leaves the target unchanged. -/
theorem recursive_merge_nil (target : List (String × Value)) :
    recursive_merge target [] = target := by
  simp [recursive_merge]

/-- Unfolding: one source binding lands on its target slot, then the rest. -/
theorem recursive_merge_cons (target : List (String × Value)) (k : String)
    (sv : Value) (rest : List (String × Value)) :
    recursive_merge target ((k, sv) :: rest) =
      recursive_merge (setKey target k (mergeValue (lookupVal target k) sv)) rest := by
  simp [recursive_merge]

/-- Two nested mappings merge key-by-key, recursively. -/
theorem mergeValue_maps (tl sl : List (String × Value)) :
    mergeValue (some (Value.map tl)) (Value.map sl) =
      Value.map (recursive_merge tl sl) := by
  simp [mergeValue]

/-- A non-mapping source value replaces whatever the target held. -/
theorem mergeValue_atom (ov : Option Value) (n : Int) :
    mergeValue ov (Value.atom n) = Value.atom n := by
  cases ov with
  | none => simp [mergeValue]
  | some t => cases t <;> simp [mergeValue]

/-- A source value on a fresh key is stored as is. -/
theorem mergeValue_none (v : Value) : mergeValue none v = v := by
  cases v <;> simp [mergeValue]

/-- A mapping replaces a non-mapping target value wholesale. -/
theorem mergeValue_atom_target (m : Int) (v : Value) :
    mergeValue (some (Value.atom m)) v = v := by
  cases v <;> simp [mergeValue]

/-- Key-by-key reading of `recursive_merge` (source keys unique, as in a
Python dict): a key bound in the source merges its value onto the target
slot; any other key keeps the target's binding. -/
theorem lookupVal_recursive_merge (target source : List (String × Value))
    (k : String) (h : (source.map Prod.fst).Nodup) :
    lookupVal (recursive_merge target source) k =
      match lookupVal source k with
      | some sv => some (mergeValue (lookupVal target k) sv)
      | none => lookupVal target k := by
  induction source generalizing target with
  | nil => simp [recursive_merge_nil, lookupVal]
  | cons hd rest ih =>
    obtain ⟨k0, v0⟩ := hd
    rw [List.map_cons, List.nodup_cons] at h
    rw [recursive_merge_cons, ih _ h.2]
    by_cases hk : k0 = k
    · subst hk
      have hnone : lookupVal rest k0 = none := lookupVal_eq_none rest k0 h.1
      simp [lookupVal, hnone, lookupVal_setKey_self]
    · have hne : lookupVal (setKey target k0 (mergeValue (lookupVal target k0) v0)) k =
          lookupVal target k :=
        lookupVal_setKey_ne _ _ _ _ (fun hh => hk hh.symm)
      cases hsv : lookupVal rest k <;> simp [lookupVal, hk, hne, hsv]

/-- A registry holding just an identity schema for token a, for the worked
merge example. -/
def schemasA : String → Option (Value → Value) :=
  fun t => if t = "a" then some (fun v => v) else none

/-- C5: configure validates each schema-bearing top-level token immediately
and recursively merges it into configuration, recursively merges each
schema-less token raw into pending, and the merge is key-by-key on nested
mappings while replacing non-mapping values; configuring token a with x and
then with y leaves a's resolved configuration holding both. -/
theorem configure_recursive_merge (schemas : String → Option (Value → Value))
    (st : AState) (t : String) (d : Value) (rest : List (String × Value)) :
    (∀ sch, schemas t = some sch →
      configure schemas st ((t, d) :: rest) =
        configure schemas
          { st with configuration := recursive_merge st.configuration [(t, sch d)] }
          rest) ∧
    (schemas t = none →
      configure schemas st ((t, d) :: rest) =
        configure schemas { st with pending := recursive_merge st.pending [(t, d)] }
          rest) ∧
    (∀ (target source : List (String × Value)) (k : String),
      (source.map Prod.fst).Nodup →
      lookupVal (recursive_merge target source) k =
        match lookupVal source k with
        | some sv => some (mergeValue (lookupVal target k) sv)
        | none => lookupVal target k) ∧
    (∀ tl sl, mergeValue (some (Value.map tl)) (Value.map sl) =
      Value.map (recursive_merge tl sl)) ∧
    (∀ ov n, mergeValue ov (Value.atom n) = Value.atom n) ∧
    (lookupVal (configure schemasA
        (configure schemasA ⟨[], []⟩ [("a", Value.map [("x", Value.atom 1)])])
        [("a", Value.map [("y", Value.atom 2)])]).configuration "a" =
      some (Value.map [("x", Value.atom 1), ("y", Value.atom 2)])) := by
  refine ⟨?_, ?_, lookupVal_recursive_merge, mergeValue_maps, mergeValue_atom, ?_⟩
  · intro sch hsch
    simp [configure, hsch]
  · intro hsch
    simp [configure, hsch]
  · simp [configure, schemasA, recursive_merge_cons, recursive_merge_nil,
      mergeValue, setKey, lookupVal]

/-- Concrete run of `configure_recursive_merge`: one schema-bearing token is
validated and merged into the configuration, leaving pending alone. -/
theorem configure_recursive_merge_witness :
    configure schemasA ⟨[], []⟩ [("a", Value.atom 3)] =
      configure schemasA
        { configuration := recursive_merge [] [("a", Value.atom 3)], pending := [] }
        [] :=
  (configure_recursive_merge schemasA ⟨[], []⟩ "a" (Value.atom 3) []).1
    (fun v => v) rfl

/-- Membership in a Python-set insertion. -/
theorem mem_setAdd (i j : Inst) (s : List Inst) :
    i ∈ setAdd j s ↔ i = j ∨ i ∈ s := by
  by_cases h : j ∈ s
  · simp only [setAdd, if_pos h]
    exact ⟨Or.inr, fun hh => hh.elim (fun e => e ▸ h) id⟩
  · simp [setAdd, h]

/-- Membership after scanning one unit's dependencies: the accumulator plus
every resolved dependency whose declared unit type subclasses the target. -/
theorem mem_depScan (sub : Nat → Nat → Bool) (sup : Nat)
    (ds : List DependencyRef) (acc : List Inst) (i : Inst) :
    (i ∈ ds.foldl (fun units2 d =>
        if sub d.unit sup then setAdd d.resolved units2 else units2) acc) ↔
      i ∈ acc ∨ ∃ d ∈ ds, sub d.unit sup = true ∧ d.resolved = i := by
  induction ds generalizing acc with
  | nil => simp
  | cons d rest ih =>
    simp only [List.foldl_cons]
    rw [ih]
    by_cases hd : sub d.unit sup <;> simp [hd, mem_setAdd] <;> aesop

/-- Membership after scanning a list of cached units: the accumulator, the
matching cached instances, and the matching resolved dependencies. -/
theorem mem_unitScan (sub : Nat → Nat → Bool) (sup : Nat)
    (cache : List CachedUnit) (acc : List Inst) (i : Inst) :
    (i ∈ cache.foldl (fun units u =>
        u.dependencies.foldl (fun units2 d =>
          if sub d.unit sup then setAdd d.resolved units2 else units2)
          (if sub u.inst.ty sup then setAdd u.inst units else units)) acc) ↔
      i ∈ acc ∨
      (∃ u ∈ cache, u.inst = i ∧ sub u.inst.ty sup = true) ∨
      (∃ u ∈ cache, ∃ d ∈ u.dependencies, sub d.unit sup = true ∧ d.resolved = i) := by
  induction cache generalizing acc with
  | nil => simp
  | cons u rest ih =>
    simp only [List.foldl_cons]
    rw [ih, mem_depScan]
    by_cases hu : sub u.inst.ty sup <;> simp [hu, mem_setAdd] <;> aesop

/-- C6: collate with single false returns the full set of matching instances
— cached instances of the supertype plus dependency instances whose declared
unit type subclasses it — and with single true raises the ambiguity error on
more than one match, returns the sole match when exactly one, and an absent
value (none) when zero. -/
theorem collate_semantics (sub : Nat → Nat → Bool) (cache : List CachedUnit)
    (sup : Nat) :
    collate sub cache sup false =
      Except.ok (CollateResult.set (collateUnits sub cache sup)) ∧
    (∀ i, i ∈ collateUnits sub cache sup ↔
      (∃ u ∈ cache, u.inst = i ∧ sub u.inst.ty sup = true) ∨
      (∃ u ∈ cache, ∃ d ∈ u.dependencies, sub d.unit sup = true ∧ d.resolved = i)) ∧
    (1 < (collateUnits sub cache sup).length →
      collate sub cache sup true = Except.error CollateError.ambiguous) ∧
    ((collateUnits sub cache sup).length = 0 →
      collate sub cache sup true = Except.ok (CollateResult.one none)) ∧
    (∀ i, collateUnits sub cache sup = [i] →
      collate sub cache sup true = Except.ok (CollateResult.one (some i))) := by
  refine ⟨?_, ?_, ?_, ?_, ?_⟩
  · simp [collate]
  · intro i
    rw [collateUnits, mem_unitScan]
    simp
  · intro h
    simp [collate, h]
  · intro h
    rw [List.length_eq_zero] at h
    simp [collate, h]
  · intro i h
    simp [collate, h]

/-- Concrete runs of `collate_semantics`: two matching cached units make the
singleton lookup ambiguous, an empty cache yields none, and a sole matching
unit is returned directly. -/
theorem collate_semantics_witness :
    collate (fun _ _ => true) [⟨⟨1, 10⟩, []⟩, ⟨⟨2, 10⟩, []⟩] 0 true =
      Except.error CollateError.ambiguous ∧
    collate (fun _ _ => true) [] 0 true = Except.ok (CollateResult.one none) ∧
    collate (fun _ _ => true) [⟨⟨1, 10⟩, []⟩] 0 true =
      Except.ok (CollateResult.one (some ⟨1, 10⟩)) :=
  ⟨(collate_semantics (fun _ _ => true) [⟨⟨1, 10⟩, []⟩, ⟨⟨2, 10⟩, []⟩] 0).2.2.1
      (by decide),
   (collate_semantics (fun _ _ => true) [] 0).2.2.2.1 (by decide),
   (collate_semantics (fun _ _ => true) [⟨⟨1, 10⟩, []⟩] 0).2.2.2.2 ⟨1, 10⟩
      (by decide)⟩

end Spire
